import Mathlib

set_option maxRecDepth 40000

/-!
Verification of the tag-relationship analytics engine of
`obsidian_tag_manager.py` (class `ObsidianTagManager`).

The engine works on one immutable tag-usage index, `Tag → list of documents`.
We embed the index as an association list `TagIndex := List (String × List Nat)`
(documents are opaque references, modelled as naturals).  Python dicts iterate
in first-insertion order with unique keys; `dedupFirst` reproduces that view of
a key list.  Rationals stand in for Python floats: every numeric comparison the
analysed code performs is at values exactly representable in binary floating
point, so the orders agree on everything proved here.
-/

/-- First-occurrence deduplication: keeps the first copy of each element, in
order, like the key sequence of a Python dict built by repeated insertion. -/
def dedupFirst {α : Type} [DecidableEq α] (l : List α) : List α :=
  l.foldl (fun acc x => if x ∈ acc then acc else acc ++ [x]) []

theorem mem_dedupFirst_fold {α : Type} [DecidableEq α] (l : List α) :
    ∀ (acc : List α) (x : α),
      (x ∈ l.foldl (fun acc x => if x ∈ acc then acc else acc ++ [x]) acc ↔
        x ∈ acc ∨ x ∈ l) := by
  induction l with
  | nil => intro acc x; simp
  | cons a as ih =>
    intro acc x
    simp only [List.foldl_cons]
    by_cases h : a ∈ acc
    · rw [if_pos h, ih]
      constructor
      · rintro (hx | hx)
        · exact Or.inl hx
        · exact Or.inr (List.mem_cons_of_mem a hx)
      · rintro (hx | hx)
        · exact Or.inl hx
        · rcases List.mem_cons.mp hx with rfl | hx
          · exact Or.inl h
          · exact Or.inr hx
    · rw [if_neg h, ih]
      constructor
      · rintro (hx | hx)
        · rcases List.mem_append.mp hx with hx | hx
          · exact Or.inl hx
          · simp only [List.mem_singleton] at hx
            exact Or.inr (hx ▸ List.mem_cons_self a as)
        · exact Or.inr (List.mem_cons_of_mem a hx)
      · rintro (hx | hx)
        · exact Or.inl (List.mem_append.mpr (Or.inl hx))
        · rcases List.mem_cons.mp hx with rfl | hx
          · exact Or.inl (List.mem_append.mpr (Or.inr (by simp)))
          · exact Or.inr hx

theorem mem_dedupFirst {α : Type} [DecidableEq α] (l : List α) (x : α) :
    x ∈ dedupFirst l ↔ x ∈ l := by
  unfold dedupFirst
  rw [mem_dedupFirst_fold]
  simp

theorem nodup_dedupFirst_fold {α : Type} [DecidableEq α] (l : List α) :
    ∀ acc : List α, acc.Nodup →
      (l.foldl (fun acc x => if x ∈ acc then acc else acc ++ [x]) acc).Nodup := by
  induction l with
  | nil => intro acc h; simpa using h
  | cons a as ih =>
    intro acc h
    simp only [List.foldl_cons]
    by_cases ha : a ∈ acc
    · rw [if_pos ha]; exact ih acc h
    · rw [if_neg ha]
      refine ih _ ?_
      simp [List.nodup_append, h, ha]

theorem nodup_dedupFirst {α : Type} [DecidableEq α] (l : List α) :
    (dedupFirst l).Nodup :=
  nodup_dedupFirst_fold l [] List.nodup_nil

/-- The tag-usage index consumed by the analytics code: each entry maps a tag
to the list of documents carrying it (`scan_vault_tags` output). -/
abbrev TagIndex := List (String × List Nat)

/-- Key sequence of the index, in dict iteration order. -/
def keysOf (index : TagIndex) : List String := dedupFirst (index.map Prod.fst)

/-- Document list of one tag (`tag_locations[tag]`, `[]` for a missing key). -/
def docsOf (index : TagIndex) (t : String) : List Nat :=
  match index.find? (fun p => p.1 == t) with
  | some p => p.2
  | none => []

/-- `len(tag_locations[tag])`, the usage count of a tag. -/
def usesOf (index : TagIndex) (t : String) : Nat := (docsOf index t).length

/-- All documents occurring in the index (the keys of `file_tags`). -/
def allDocs (index : TagIndex) : List Nat :=
  dedupFirst (index.foldr (fun p acc => p.2 ++ acc) [])

/-- `file_tags[d]`: the set of tags carried by document `d`. -/
def fileTags (index : TagIndex) (d : Nat) : List String :=
  (keysOf index).filter (fun t => decide (d ∈ docsOf index t))

/-- Co-occurrence weight from `analyze_tag_relationships`: for every document,
every unordered pair of distinct tags on it increments both directed entries by
one, so entry `(a, b)` gains 1 per document carrying both when `a ≠ b`. -/
def coWeight (index : TagIndex) (a b : String) : Nat :=
  (allDocs index).countP
    (fun d => decide (a ∈ fileTags index d) && decide (b ∈ fileTags index d) &&
      decide (a ≠ b))

/-- Claim C1: for every input index and distinct non-author tags `a`, `b`, the
co-occurrence weight equals the exact number of (distinct) documents whose tag
set contains both; the weight is symmetric, and no self-loop weight is
produced. -/
theorem coWeight_correct (index : TagIndex) (a b : String) (hab : a ≠ b) :
    coWeight index a b =
      ((allDocs index).filter
        (fun d => decide (a ∈ fileTags index d) && decide (b ∈ fileTags index d))).length ∧
    coWeight index a b = coWeight index b a ∧
    coWeight index a a = 0 ∧
    (allDocs index).Nodup := by
  refine ⟨?_, ?_, ?_, nodup_dedupFirst _⟩
  · unfold coWeight
    rw [List.countP_eq_length_filter]
    congr 1
    apply List.filter_congr
    intro d _
    by_cases h1 : a ∈ fileTags index d <;> by_cases h2 : b ∈ fileTags index d <;>
      simp [h1, h2, hab]
  · unfold coWeight
    apply List.countP_congr
    intro d _
    by_cases h1 : a ∈ fileTags index d <;> by_cases h2 : b ∈ fileTags index d <;>
      simp [h1, h2, hab, Ne.symm hab]
  · unfold coWeight
    simp

/-- Index for the C1 scenario: tags `ai` and `education` co-occur on exactly
five documents and nowhere else. -/
def exC1 : TagIndex := [("ai", [1, 2, 3, 4, 5]), ("education", [1, 2, 3, 4, 5])]

/-- Witness for C1: the hypotheses of `coWeight_correct` hold at the scenario
input, and there the weight evaluates to 5. -/
theorem coWeight_correct_witness :
    ("ai" : String) ≠ "education" ∧
    coWeight exC1 "ai" "education" =
      ((allDocs exC1).filter
        (fun d => decide ("ai" ∈ fileTags exC1 d) &&
          decide ("education" ∈ fileTags exC1 d))).length ∧
    coWeight exC1 "ai" "education" = 5 :=
  ⟨by decide, (coWeight_correct exC1 "ai" "education" (by decide)).1, by decide⟩

/-!
Temporal trend classification (`analyze_temporal_trends`).  Per tag the code
collects the list of years of the documents using it (one entry per document
with a derivable year in `[1990, current_year]`) and classifies the tag by the
first matching band of an `if`/`elif` chain, guarded by `len(years) < 3 →
skip` and `total_count >= 5`.
-/

/-- One of the four trend categories, or unclassified. -/
inductive Trend
  | emerging
  | declining
  | stable
  | periodic
  | unclassified
deriving DecidableEq

/-- `max(years)` (0 on the empty list, which the classifier never reaches). -/
def listMax (l : List Int) : Int :=
  match l with
  | [] => 0
  | y :: ys => ys.foldl max y

/-- `min(years)` (0 on the empty list). -/
def listMin (l : List Int) : Int :=
  match l with
  | [] => 0
  | y :: ys => ys.foldl min y

/-- The distinct years of a tag, in first-occurrence order (the key order of
`Counter(years)` / iteration order of `set` insertion). -/
def distinctYears (years : List Int) : List Int := dedupFirst years

/-- `recent_count`: occurrences with `year >= current_year - 2`. -/
def recentCount (cy : Int) (years : List Int) : Nat :=
  (years.filter (fun y => decide (cy - 2 ≤ y))).length

/-- `recent_ratio = recent_count / total_count`. -/
def recentRatio (cy : Int) (years : List Int) : ℚ :=
  (recentCount cy years : ℚ) / (years.length : ℚ)

/-- `year_span = max(years) - min(years) + 1`. -/
def yearSpan (years : List Int) : Int := listMax years - listMin years + 1

/-- `activity_density = unique_years / year_span if year_span > 0 else 0`. -/
def activityDensity (years : List Int) : ℚ :=
  if 0 < yearSpan years then
    ((distinctYears years).length : ℚ) / ((yearSpan years : Int) : ℚ)
  else 0

/-- `peak_year, peak_count = max(years_counter.items(), key=count)`: Python's
`max` keeps the first maximal entry, and `Counter` iterates keys in
first-occurrence order. -/
def peakYear (years : List Int) : Int :=
  match distinctYears years with
  | [] => 0
  | y :: ys =>
    (ys.foldl
      (fun best z => if best.2 < years.count z then (z, years.count z) else best)
      (y, years.count y)).1

/-- `sorted(set(years))`. -/
def sortedUnique (years : List Int) : List Int :=
  List.insertionSort (· ≤ ·) (distinctYears years)

/-- The gaps `> 1` between consecutive sorted distinct years. -/
def gapsOf (years : List Int) : List Int :=
  ((sortedUnique years).zip (sortedUnique years).tail).filterMap
    (fun p => if 1 < p.2 - p.1 then some (p.2 - p.1) else none)

/-- The per-tag classification of `analyze_temporal_trends`: the `if`/`elif`
chain over the derived metrics, first match wins.  A tag with fewer than 3
year entries is skipped, and the four bands sit under `total_count >= 5`;
the periodic band additionally requires a nonempty gap list. -/
def classifyTag (cy : Int) (years : List Int) : Trend :=
  if years.length < 3 then Trend.unclassified
  else if years.length < 5 then Trend.unclassified
  else if 7/10 < recentRatio cy years ∧ cy - 2 ≤ listMax years then Trend.emerging
  else if recentRatio cy years < 3/10 ∧ peakYear years < cy - 3 then Trend.declining
  else if 3/10 ≤ recentRatio cy years ∧ recentRatio cy years ≤ 7/10 ∧
      1/2 < activityDensity years then Trend.stable
  else if 3 ≤ (distinctYears years).length ∧ activityDensity years < 1/2 ∧
      gapsOf years ≠ [] then Trend.periodic
  else Trend.unclassified

/-- Claim C2 (amended): a tag is assigned one of the four trend categories
only if it has at least 5 total year entries (so any tag with fewer than 5
occurrences is unclassified); the general `≥ 3 distinct years` requirement of
the original claim fails (see the counterexample), and only the periodic band
implies it. -/
theorem classify_needs_history (cy : Int) (years : List Int) :
    (classifyTag cy years ≠ Trend.unclassified → 5 ≤ years.length) ∧
    (classifyTag cy years = Trend.periodic → 3 ≤ (distinctYears years).length) := by
  unfold classifyTag
  split_ifs with h1 h2 h3 h4 h5 h6
  · exact ⟨fun h => absurd rfl h, fun h => by cases h⟩
  · exact ⟨fun h => absurd rfl h, fun h => by cases h⟩
  · exact ⟨fun _ => by omega, fun h => by cases h⟩
  · exact ⟨fun _ => by omega, fun h => by cases h⟩
  · exact ⟨fun _ => by omega, fun h => by cases h⟩
  · exact ⟨fun _ => by omega, fun _ => h6.1⟩
  · exact ⟨fun h => absurd rfl h, fun h => by cases h⟩

/-- Year list of the C3 scenario: two uses per year across 2019–2023. -/
def stableYears : List Int :=
  [2019, 2019, 2020, 2020, 2021, 2021, 2022, 2022, 2023, 2023]

theorem stableYears_recentRatio : recentRatio 2023 stableYears = 3/5 := by
  norm_num [recentRatio, recentCount, stableYears]

theorem stableYears_density : activityDensity stableYears = 1 := by
  norm_num [activityDensity, yearSpan, listMax, listMin, distinctYears,
    dedupFirst, stableYears, max_def, min_def]

theorem stableYears_classified : classifyTag 2023 stableYears = Trend.stable := by
  unfold classifyTag
  rw [stableYears_recentRatio, stableYears_density]
  norm_num [stableYears, listMax, max_def]

/-- Claim C3 (amended): `recent_ratio` counts the occurrences with
`year ≥ current_year − 2` (a three-calendar-year window), so the 2019–2023
two-per-year scenario at current year 2023 yields `recent_ratio = 0.6` (not
0.4), `activity_density = 1.0`, and the tag is classified stable. -/
theorem stable_scenario_eval :
    recentRatio 2023 stableYears = 3/5 ∧
    activityDensity stableYears = 1 ∧
    classifyTag 2023 stableYears = Trend.stable :=
  ⟨stableYears_recentRatio, stableYears_density, stableYears_classified⟩

/-- Counterexample to C3 as stated: on the scenario input the computed
`recent_ratio` is 3/5, not the claimed 2/5 (= 4 occurrences in 2022–2023
divided by 10). -/
theorem stable_scenario_ratio_ne : recentRatio 2023 stableYears ≠ 2/5 := by
  rw [stableYears_recentRatio]
  norm_num

/-- Witness for C2: the scenario tag is classified (stable), and indeed has at
least 5 year entries. -/
theorem classify_needs_history_witness :
    classifyTag 2023 stableYears ≠ Trend.unclassified ∧ 5 ≤ stableYears.length := by
  have h : classifyTag 2023 stableYears ≠ Trend.unclassified := by
    rw [stableYears_classified]
    intro h
    cases h
  exact ⟨h, (classify_needs_history 2023 stableYears).1 h⟩

/-- Year list refuting the distinct-years clause of C2: five uses in one
single year. -/
def burstYears : List Int := [2025, 2025, 2025, 2025, 2025]

/-- Counterexample to C2 as stated: a tag with only one distinct year (but 5
total occurrences) is still classified, namely as emerging. -/
theorem one_year_still_classified :
    classifyTag 2025 burstYears = Trend.emerging ∧
    (distinctYears burstYears).length = 1 := by
  constructor
  · unfold classifyTag
    have hr : recentRatio 2025 burstYears = 1 := by
      norm_num [recentRatio, recentCount, burstYears]
    rw [hr]
    norm_num [burstYears, listMax, max_def]
  · norm_num [distinctYears, dedupFirst, burstYears]

/-!
Bridge-tag detection (`_find_bridge_tags`).  For each tag used at least 5
times, every co-occurring tag is matched against a static 8-domain vocabulary.
A keyword match (`keyword in co_tag`) contributes the co-occurrence weight
once, and every matching pattern contributes it again, so one co-tag can feed
the same domain several times.  Tags connecting at least 3 domains become
candidates, sorted by (domain count, bridge strength, uses) descending; the
top 15 are returned.
-/

/-- Substring test: `sub in s` of Python. -/
def subIn (sub s : String) : Bool :=
  (s.toList.tails).any (fun t => sub.toList.isPrefixOf t)

/-- `s.startswith(p)`. -/
def startsL (s p : List Char) : Bool := p.isPrefixOf s

/-- `s.endswith(p)`. -/
def endsL (s p : List Char) : Bool := p.reverse.isPrefixOf s.reverse

/-- One domain of the static vocabulary: keyword list plus affix patterns. -/
structure DomainDef where
  keywords : List String
  patterns : List String

def dEducation : DomainDef :=
  ⟨["learning", "education", "pedagogy", "teaching", "student",
    "classroom", "curriculum", "instruction", "school", "academic"],
   ["_education", "edu_", "_learning", "teach_"]⟩

def dAI : DomainDef :=
  ⟨["ai", "artificial", "machine", "intelligence", "algorithm",
    "automated", "computational", "neural", "deep", "generative"],
   ["ai_", "_ai", "ml_", "_learning", "intelligent_"]⟩

def dResearch : DomainDef :=
  ⟨["research", "method", "study", "analysis", "theory",
    "framework", "investigation", "empirical", "qualitative", "quantitative"],
   ["_research", "research_", "_method", "_analysis", "_study"]⟩

def dProfessional : DomainDef :=
  ⟨["teacher", "professional", "development", "training",
    "practice", "competency", "faculty", "educator", "instructor"],
   ["professional_", "teacher_", "_development", "_training"]⟩

def dSocial : DomainDef :=
  ⟨["social", "online", "community", "collaborative", "network",
    "interaction", "communication", "virtual", "digital", "media"],
   ["social_", "online_", "digital_", "_community", "_network"]⟩

def dTechnology : DomainDef :=
  ⟨["technology", "tech", "digital", "computer", "software",
    "platform", "tool", "system", "application", "interface"],
   ["tech_", "_technology", "digital_", "computer_", "_system"]⟩

def dAssessment : DomainDef :=
  ⟨["assessment", "evaluation", "testing", "measurement",
    "feedback", "grading", "performance", "outcome", "rubric"],
   ["assess_", "_assessment", "evaluat_", "_evaluation"]⟩

def dCognitive : DomainDef :=
  ⟨["cognitive", "thinking", "metacognition", "knowledge",
    "understanding", "reasoning", "problem", "critical", "creative"],
   ["cognit_", "_thinking", "meta_", "_knowledge"]⟩

/-- The `domain_patterns` table, in source order. -/
def domainTable : List (String × DomainDef) :=
  [("education", dEducation), ("ai", dAI), ("research", dResearch),
   ("professional", dProfessional), ("social", dSocial),
   ("technology", dTechnology), ("assessment", dAssessment),
   ("cognitive", dCognitive)]

/-- One pattern check: a pattern starting with `_` matches a co-tag ending in
its remainder, else a pattern ending in `_` matches a co-tag starting with its
stem (the `if`/`elif` of the source, in order). -/
def patternHit (coTag pat : String) : Bool :=
  if startsL pat.toList ['_'] && endsL coTag.toList (pat.toList.drop 1) then true
  else if endsL pat.toList ['_'] && startsL coTag.toList (pat.toList.dropLast) then true
  else false

/-- How many times one co-tag feeds a domain's strength: once if any keyword
is a substring, plus once per matching pattern. -/
def domainHits (coTag : String) (dd : DomainDef) : Nat :=
  (if dd.keywords.any (fun k => subIn k coTag) then 1 else 0) +
    dd.patterns.countP (fun p => patternHit coTag p)

/-- The co-occurring tags of `t` (the keys of `co_occurrences[t]`). -/
def coTagsOf (index : TagIndex) (t : String) : List String :=
  (keysOf index).filter (fun b => decide (0 < coWeight index t b))

/-- `domain_strengths[domain]` as accumulated by the source: the sum over
co-tags of (matching criteria count) × (co-occurrence weight). -/
def domainStrength (index : TagIndex) (t : String) (dd : DomainDef) : Nat :=
  ((coTagsOf index t).map (fun b => domainHits b dd * coWeight index t b)).sum

/-- A domain is connected to `t` iff some co-tag matches one of its criteria. -/
def domainConnected (index : TagIndex) (t : String) (dd : DomainDef) : Bool :=
  (coTagsOf index t).any (fun b => decide (0 < domainHits b dd))

/-- `connected_domains` of `t`, in table order. -/
def connectedDomains (index : TagIndex) (t : String) : List String :=
  (domainTable.filter (fun p => domainConnected index t p.2)).map Prod.fst

/-- `sum(domain_strengths.values())`. -/
def totalStrength (index : TagIndex) (t : String) : Nat :=
  ((domainTable.filter (fun p => domainConnected index t p.2)).map
    (fun p => domainStrength index t p.2)).sum

/-- The record emitted per bridge tag. -/
structure BridgeCandidate where
  tag : String
  domainCount : Nat
  uses : Nat
  bridgeStrength : ℚ
deriving DecidableEq

/-- Candidate construction for one tag: skip tags used fewer than 5 times,
emit a candidate when at least 3 domains are connected, with
`bridge_strength = sum(domain_strengths.values()) / len(connected_domains)`. -/
def mkBridge (index : TagIndex) (t : String) : Option BridgeCandidate :=
  if usesOf index t < 5 then none
  else if 3 ≤ (connectedDomains index t).length then
    some ⟨t, (connectedDomains index t).length, usesOf index t,
      (totalStrength index t : ℚ) / ((connectedDomains index t).length : ℚ)⟩
  else none

/-- All bridge candidates, before sorting. -/
def bridgeAll (index : TagIndex) : List BridgeCandidate :=
  (keysOf index).filterMap (mkBridge index)

/-- Sort key of the final sort: (domain count, bridge strength, uses),
compared lexicographically. -/
def brKey (c : BridgeCandidate) : Lex (Nat × Lex (ℚ × Nat)) :=
  toLex (c.domainCount, toLex (c.bridgeStrength, c.uses))

/-- `c` may precede `d` in the descending sort. -/
def brBefore (c d : BridgeCandidate) : Prop := brKey d ≤ brKey c

instance : DecidableRel brBefore :=
  fun c d => inferInstanceAs (Decidable (brKey d ≤ brKey c))

instance : IsTotal BridgeCandidate brBefore :=
  ⟨fun a b => by exact le_total (brKey b) (brKey a)⟩

instance : IsTrans BridgeCandidate brBefore :=
  ⟨fun _ _ _ h1 h2 => by exact le_trans h2 h1⟩

/-- The returned bridge list: candidates sorted descending, top 15. -/
def bridgeTags (index : TagIndex) : List BridgeCandidate :=
  (List.insertionSort brBefore (bridgeAll index)).take 15

/-- Claim C4 (amended): every tag of the index with usage at least 5 whose
co-occurring tags connect at least 3 domains yields a candidate whose
`bridge_strength` is the total accumulated domain strength divided by the
number of connected domains, where a domain's strength accumulates the
co-occurrence weight once per matching criterion (once if any keyword
matches, plus once per matching affix pattern) — not once per matched co-tag
as originally claimed; the final list is the candidates sorted descending by
(domain count, bridge strength, uses) and cut to the top 15. -/
theorem bridge_emission (index : TagIndex) (t : String)
    (h1 : t ∈ keysOf index) (h2 : 5 ≤ usesOf index t)
    (h3 : 3 ≤ (connectedDomains index t).length) :
    (⟨t, (connectedDomains index t).length, usesOf index t,
        (totalStrength index t : ℚ) / ((connectedDomains index t).length : ℚ)⟩ :
      BridgeCandidate) ∈ bridgeAll index ∧
    bridgeTags index = (List.insertionSort brBefore (bridgeAll index)).take 15 ∧
    (bridgeTags index).length ≤ 15 ∧
    List.Sorted brBefore (bridgeTags index) := by
  refine ⟨?_, rfl, ?_, ?_⟩
  · refine List.mem_filterMap.mpr ⟨t, h1, ?_⟩
    unfold mkBridge
    rw [if_neg (by omega), if_pos h3]
  · exact List.length_take_le 15 _
  · exact (List.sorted_insertionSort brBefore (bridgeAll index)).sublist
      (List.take_sublist 15 _)

/-- Index for the C4 scenario: tag `t` (usage 10) co-occurs with `neural`
(weight 4, matching only the `ai` keyword `neural`), `pedagogy` (weight 6,
matching only the `education` keyword `pedagogy`) and `rubric` (weight 2,
matching only the `assessment` keyword `rubric`); each co-tag matches its
domain by exactly one criterion. -/
def exC4w : TagIndex :=
  [("t", [1, 2, 3, 4, 5, 6, 7, 8, 9, 10]),
   ("neural", [1, 2, 3, 4]),
   ("pedagogy", [1, 2, 3, 4, 5, 6]),
   ("rubric", [7, 8])]

/-- Witness for C4: at the scenario index the hypotheses hold for tag `t`, the
candidate is emitted, the three domain strengths are 4, 6, 2, and the bridge
strength is (4+6+2)/3 = 4. -/
theorem bridge_emission_witness :
    ("t" ∈ keysOf exC4w ∧ 5 ≤ usesOf exC4w "t" ∧
      3 ≤ (connectedDomains exC4w "t").length) ∧
    (⟨"t", (connectedDomains exC4w "t").length, usesOf exC4w "t",
        (totalStrength exC4w "t" : ℚ) / ((connectedDomains exC4w "t").length : ℚ)⟩ :
      BridgeCandidate) ∈ bridgeAll exC4w ∧
    domainStrength exC4w "t" dAI = 4 ∧
    domainStrength exC4w "t" dEducation = 6 ∧
    domainStrength exC4w "t" dAssessment = 2 ∧
    totalStrength exC4w "t" = 12 ∧
    (connectedDomains exC4w "t").length = 3 ∧
    (totalStrength exC4w "t" : ℚ) / ((connectedDomains exC4w "t").length : ℚ) = 4 := by
  have h := bridge_emission exC4w "t" (by decide) (by decide) (by decide)
  refine ⟨⟨by decide, by decide, by decide⟩, h.1, by decide, by decide, by decide,
    by decide, by decide, ?_⟩
  have e1 : totalStrength exC4w "t" = 12 := by decide
  have e2 : (connectedDomains exC4w "t").length = 3 := by decide
  rw [e1, e2]
  norm_num

/-- What the original claim says a domain's strength is: the sum of the
co-occurrence weights of the co-tags matched to the domain, each counted
once. -/
def claimDomainStrength (index : TagIndex) (t : String) (dd : DomainDef) : Nat :=
  (((coTagsOf index t).filter (fun b => decide (0 < domainHits b dd))).map
    (fun b => coWeight index t b)).sum

/-- Index refuting the per-co-tag strength reading of C4: `t` (usage 5)
co-occurs with `ai_learning` (weight 1), which matches the `ai` domain by a
keyword *and* two affix patterns, and with `assessment` (weight 2). -/
def exC4c : TagIndex :=
  [("t", [1, 2, 3, 4, 5]), ("ai_learning", [1]), ("assessment", [2, 3])]

/-- Counterexample to C4 as stated: the candidate for `t` is emitted, but its
accumulated `ai` strength is 3 (keyword `ai`, plus patterns `ai_` and
`_learning`, each adding weight 1), while the claimed per-co-tag sum is 1;
its bridge strength is 11/3, not the claimed (1+1+2)/3. -/
theorem bridge_strength_counterexample :
    (bridgeAll exC4c).map (fun c => c.tag) = ["t"] ∧
    domainStrength exC4c "t" dAI = 3 ∧
    claimDomainStrength exC4c "t" dAI = 1 ∧
    totalStrength exC4c "t" = 11 ∧
    (connectedDomains exC4c "t").length = 3 ∧
    domainStrength exC4c "t" dAI ≠ claimDomainStrength exC4c "t" dAI := by
  refine ⟨by decide, by decide, by decide, by decide, by decide, by decide⟩

/-!
Cluster detection (`_find_tag_clusters`).  Seed candidates are the tags with
more than 5 uses and more than 5 co-occurrence partners of weight above 3;
they are sorted by partner count descending (Python's stable sort — no
further key).  The top 10 seeds are expanded greedily: each unclaimed
neighbour with weight above 3 and weight/usage above 0.4 joins the seed's
cluster and is claimed; clusters of size at most 2 are dropped (their members
stay claimed), and the kept ones are sorted by total member usage.
-/

/-- `connections`: the number of co-occurrence partners of weight `> 3`. -/
def connCount (index : TagIndex) (t : String) : Nat :=
  ((keysOf index).filter (fun b => decide (3 < coWeight index t b))).length

/-- The unsorted seed-candidate list `(tag, connections)`, in index order. -/
def seedCandidatesRaw (index : TagIndex) : List (String × Nat) :=
  ((keysOf index).filter
    (fun t => decide (5 < usesOf index t) && decide (5 < connCount index t))).map
    (fun t => (t, connCount index t))

/-- `p` may precede `q` in the descending connectivity sort. -/
def connGE (p q : String × Nat) : Prop := q.2 ≤ p.2

instance : DecidableRel connGE :=
  fun p q => inferInstanceAs (Decidable (q.2 ≤ p.2))

instance : IsTotal (String × Nat) connGE :=
  ⟨fun a b => by exact Nat.le_total b.2 a.2⟩

instance : IsTrans (String × Nat) connGE :=
  ⟨fun _ _ _ h1 h2 => by exact Nat.le_trans h2 h1⟩

/-- The ranked seed candidates (`seed_candidates.sort(key=connections,
reverse=True)`). -/
def seedRanking (index : TagIndex) : List (String × Nat) :=
  List.insertionSort connGE (seedCandidatesRaw index)

/-- One emitted cluster. -/
structure TagCluster where
  tags : List String
  size : Nat
  totalUses : Nat
  seed : String

/-- Expansion of one seed over the claimed set: skip already-claimed seeds;
otherwise claim the seed plus every unclaimed neighbour with weight `> 3` and
`weight / usage(seed) > 0.4`, and keep the cluster only if it has more than
two members. -/
def clusterStep (index : TagIndex) (st : List String × List TagCluster)
    (p : String × Nat) : List String × List TagCluster :=
  if p.1 ∈ st.1 then st
  else
    let added := (keysOf index).filter
      (fun b => decide (b ∉ p.1 :: st.1) && decide (3 < coWeight index p.1 b) &&
        decide ((2 : ℚ)/5 < (coWeight index p.1 b : ℚ) / (usesOf index p.1 : ℚ)))
    let members := p.1 :: added
    (st.1 ++ members,
      if 2 < members.length then
        st.2 ++ [⟨members, members.length,
          (members.map (fun t => usesOf index t)).sum, p.1⟩]
      else st.2)

/-- The emitted clusters: fold the top 10 seeds through `clusterStep`, then
sort by total member usage descending. -/
def usesGE (c d : TagCluster) : Prop := d.totalUses ≤ c.totalUses

instance : DecidableRel usesGE :=
  fun c d => inferInstanceAs (Decidable (d.totalUses ≤ c.totalUses))

instance : IsTotal TagCluster usesGE :=
  ⟨fun a b => by exact Nat.le_total b.totalUses a.totalUses⟩

instance : IsTrans TagCluster usesGE :=
  ⟨fun _ _ _ h1 h2 => by exact Nat.le_trans h2 h1⟩

def tagClusters (index : TagIndex) : List TagCluster :=
  List.insertionSort usesGE
    (((seedRanking index).take 10).foldl (clusterStep index) ([], [])).2

/-- Disjointness of two clusters' member lists. -/
def clusterDisj (c d : TagCluster) : Prop := ∀ t ∈ c.tags, t ∉ d.tags

theorem clusterStep_inv (index : TagIndex) (seeds : List (String × Nat)) :
    ∀ st : List String × List TagCluster,
      (∀ c ∈ st.2, ∀ t ∈ c.tags, t ∈ st.1) → st.2.Pairwise clusterDisj →
      (∀ c ∈ (seeds.foldl (clusterStep index) st).2,
          ∀ t ∈ c.tags, t ∈ (seeds.foldl (clusterStep index) st).1) ∧
        (seeds.foldl (clusterStep index) st).2.Pairwise clusterDisj := by
  induction seeds with
  | nil => intro st h1 h2; exact ⟨h1, h2⟩
  | cons p ps ih =>
    intro st h1 h2
    simp only [List.foldl_cons]
    apply ih
    · unfold clusterStep
      by_cases hp : p.1 ∈ st.1
      · rw [if_pos hp]; exact h1
      · rw [if_neg hp]
        simp only
        split_ifs with hlen
        · intro c hc t ht
          rcases List.mem_append.mp hc with hc | hc
          · exact List.mem_append.mpr (Or.inl (h1 c hc t ht))
          · simp only [List.mem_singleton] at hc
            subst hc
            exact List.mem_append.mpr (Or.inr ht)
        · intro c hc t ht
          exact List.mem_append.mpr (Or.inl (h1 c hc t ht))
    · unfold clusterStep
      by_cases hp : p.1 ∈ st.1
      · rw [if_pos hp]; exact h2
      · rw [if_neg hp]
        simp only
        split_ifs with hlen
        · rw [List.pairwise_append]
          refine ⟨h2, List.pairwise_singleton _ _, ?_⟩
          intro c hc d hd t htc htd
          simp only [List.mem_singleton] at hd
          subst hd
          have htst : t ∈ st.1 := h1 c hc t htc
          rcases List.mem_cons.mp htd with rfl | htd
          · exact hp htst
          · have := List.mem_filter.mp htd
            have hnot := this.2
            simp only [Bool.and_eq_true, decide_eq_true_eq] at hnot
            exact hnot.1.1 (List.mem_cons_of_mem _ htst)
        · exact h2

/-- Claim C7: the emitted clusters are pairwise disjoint — no tag, seed or
added neighbour, is a member of more than one cluster. -/
theorem clusters_disjoint (index : TagIndex) :
    (tagClusters index).Pairwise clusterDisj := by
  have hsym : Symmetric clusterDisj := by
    intro c d h t htd htc
    exact h t htc htd
  have hperm : List.Perm
      (List.insertionSort usesGE
        (((seedRanking index).take 10).foldl (clusterStep index) ([], [])).2)
      (((seedRanking index).take 10).foldl (clusterStep index) ([], [])).2 :=
    List.perm_insertionSort usesGE _
  have hinv := clusterStep_inv index ((seedRanking index).take 10) ([], [])
    (by intro c hc; cases hc) List.Pairwise.nil
  unfold tagClusters
  exact ((hperm.pairwise_iff (fun h => hsym h)).symm).mp hinv.2

/-- Claim C8 (amended): the seed candidates are exactly the tags with usage
greater than 5 and more than 5 partners of weight greater than 3, and the
ranking is by partner count descending only — the sort is stable in index
order, with no usage or lexicographic tie-break (see the counterexample). -/
theorem seed_ranking_members (index : TagIndex) (t : String) (c : Nat) :
    ((t, c) ∈ seedRanking index ↔
      t ∈ keysOf index ∧ 5 < usesOf index t ∧ 5 < connCount index t ∧
        c = connCount index t) ∧
    List.Sorted connGE (seedRanking index) := by
  constructor
  · unfold seedRanking
    rw [List.mem_insertionSort]
    unfold seedCandidatesRaw
    simp only [List.mem_map, List.mem_filter, Bool.and_eq_true, decide_eq_true_eq,
      Prod.mk.injEq]
    constructor
    · rintro ⟨a, ⟨ha, hu, hc⟩, rfl, rfl⟩
      exact ⟨ha, hu, hc, rfl⟩
    · rintro ⟨ha, hu, hc, rfl⟩
      exact ⟨t, ⟨ha, hu, hc⟩, rfl, rfl⟩
  · exact List.sorted_insertionSort connGE _

/-- Index refuting the tie-break of C8: seven mutually co-occurring tags on
the same six documents, listed with `b1` before `a1`.  All seven tie at six
partners of weight 6 and usage 6. -/
def exC8 : TagIndex :=
  [("b1", [1, 2, 3, 4, 5, 6]), ("a1", [1, 2, 3, 4, 5, 6]),
   ("c1", [1, 2, 3, 4, 5, 6]), ("d1", [1, 2, 3, 4, 5, 6]),
   ("e1", [1, 2, 3, 4, 5, 6]), ("f1", [1, 2, 3, 4, 5, 6]),
   ("g1", [1, 2, 3, 4, 5, 6])]

/-- Counterexample to C8 as stated: `a1` and `b1` tie on partner count and on
usage, `a1` precedes `b1` lexicographically, yet the computed ranking puts
`b1` first (stable sort keeps index order) — there is no usage/lexicographic
tie-break. -/
theorem seed_ranking_counterexample :
    (seedRanking exC8).head? = some ("b1", 6) ∧
    ("a1", 6) ∈ seedRanking exC8 ∧
    usesOf exC8 "a1" = usesOf exC8 "b1" ∧
    "a1".toList < "b1".toList := by
  refine ⟨by decide, by decide, by decide, by decide⟩

/-- Witness for C8: at the concrete index the membership characterisation
instantiates to a true closed fact about `("b1", 6)`. -/
theorem seed_ranking_members_witness :
    ("b1", 6) ∈ seedRanking exC8 ∧ 5 < usesOf exC8 "b1" ∧
      5 < connCount exC8 "b1" := by
  have h := (seed_ranking_members exC8 "b1" 6).1.mpr
    ⟨by decide, by decide, by decide, by decide⟩
  exact ⟨h, by decide, by decide⟩

/-!
Semantic-duplicate merge (`find_semantic_duplicates`, final deduplication
step).  All candidate groups produced by the three strategies are pooled,
sorted by (confidence, total uses) descending, then greedily accepted: a
group is kept only if at least half of its tags are not yet claimed; the kept
group is rewritten to its unclaimed tags (with total uses recomputed), the
tags are claimed, and the first 20 accepted groups are returned.
-/

/-- One candidate group as pooled before the merge step. -/
structure SemGroup where
  gtype : String
  tags : List String
  totalUses : Nat
  confidence : ℚ

/-- `g` may precede `h` in the (confidence, total uses) descending sort. -/
def semBefore (g h : SemGroup) : Prop :=
  toLex (h.confidence, h.totalUses) ≤ toLex (g.confidence, g.totalUses)

instance : DecidableRel semBefore :=
  fun g h => inferInstanceAs
    (Decidable (toLex (h.confidence, h.totalUses) ≤ toLex (g.confidence, g.totalUses)))

instance : IsTotal SemGroup semBefore :=
  ⟨fun a b => by
    exact le_total (toLex (b.confidence, b.totalUses)) (toLex (a.confidence, a.totalUses))⟩

instance : IsTrans SemGroup semBefore :=
  ⟨fun _ _ _ h1 h2 => by exact le_trans h2 h1⟩

/-- One acceptance step over the state (accepted groups, claimed tags):
accept when `len(new_tags) >= len(group.tags) / 2`, keeping only the new tags
and recomputing their total uses. -/
def acceptStep (index : TagIndex) (st : List SemGroup × List String)
    (g : SemGroup) : List SemGroup × List String :=
  let newTags := g.tags.filter (fun t => decide (t ∉ st.2))
  if g.tags.length ≤ 2 * newTags.length then
    (st.1 ++ [⟨g.gtype, newTags, (newTags.map (fun t => usesOf index t)).sum,
        g.confidence⟩],
      st.2 ++ newTags)
  else st

/-- The merge step: sort the pool, fold the acceptance, return the top 20. -/
def mergeGroups (index : TagIndex) (pool : List SemGroup) : List SemGroup :=
  (((List.insertionSort semBefore pool).foldl (acceptStep index) ([], [])).1).take 20

/-- Disjointness of two groups' reported tag lists. -/
def groupDisj (g h : SemGroup) : Prop := ∀ t ∈ g.tags, t ∉ h.tags

theorem acceptStep_inv (index : TagIndex) (l : List SemGroup)
    (pool : List SemGroup) (hl : ∀ g ∈ l, g ∈ pool) :
    ∀ st : List SemGroup × List String,
      (∀ g ∈ st.1, ∀ t ∈ g.tags, t ∈ st.2) → st.1.Pairwise groupDisj →
      (∀ g ∈ st.1, ∃ g₀ ∈ pool,
        g.gtype = g₀.gtype ∧ g.confidence = g₀.confidence ∧
        (∀ t ∈ g.tags, t ∈ g₀.tags) ∧ g₀.tags.length ≤ 2 * g.tags.length) →
      ((∀ g ∈ (l.foldl (acceptStep index) st).1,
          ∀ t ∈ g.tags, t ∈ (l.foldl (acceptStep index) st).2) ∧
        (l.foldl (acceptStep index) st).1.Pairwise groupDisj ∧
        (∀ g ∈ (l.foldl (acceptStep index) st).1, ∃ g₀ ∈ pool,
          g.gtype = g₀.gtype ∧ g.confidence = g₀.confidence ∧
          (∀ t ∈ g.tags, t ∈ g₀.tags) ∧ g₀.tags.length ≤ 2 * g.tags.length)) := by
  induction l with
  | nil => intro st h1 h2 h3; exact ⟨h1, h2, h3⟩
  | cons g gs ih =>
    intro st h1 h2 h3
    simp only [List.foldl_cons]
    have hg : g ∈ pool := hl g (List.mem_cons_self g gs)
    have hgs : ∀ x ∈ gs, x ∈ pool := fun x hx => hl x (List.mem_cons_of_mem g hx)
    apply ih hgs
    · unfold acceptStep
      simp only
      split_ifs with hacc
      · intro c hc t ht
        rcases List.mem_append.mp hc with hc | hc
        · exact List.mem_append.mpr (Or.inl (h1 c hc t ht))
        · simp only [List.mem_singleton] at hc
          subst hc
          exact List.mem_append.mpr (Or.inr ht)
      · exact h1
    · unfold acceptStep
      simp only
      split_ifs with hacc
      · rw [List.pairwise_append]
        refine ⟨h2, List.pairwise_singleton _ _, ?_⟩
        intro c hc d hd t htc htd
        simp only [List.mem_singleton] at hd
        subst hd
        simp only at htd
        have := List.mem_filter.mp htd
        have hnot := this.2
        simp only [decide_eq_true_eq] at hnot
        exact hnot (h1 c hc t htc)
      · exact h2
    · unfold acceptStep
      simp only
      split_ifs with hacc
      · intro c hc
        rcases List.mem_append.mp hc with hc | hc
        · exact h3 c hc
        · simp only [List.mem_singleton] at hc
          subst hc
          refine ⟨g, hg, rfl, rfl, ?_, ?_⟩
          · intro t ht
            exact (List.mem_filter.mp ht).1
          · exact hacc
      · exact h3

/-- Claim C5: the merge step sorts the pooled groups by (confidence, total
uses) descending, accepts a group only when at least half of its tags are
unclaimed, returns at most 20 groups, and no tag is reported in two returned
groups; every returned group keeps its strategy and confidence, reports a
subset of its pool tags, and that subset is at least half of the original. -/
theorem merge_groups_correct (index : TagIndex) (pool : List SemGroup) :
    mergeGroups index pool =
      (((List.insertionSort semBefore pool).foldl (acceptStep index) ([], [])).1).take 20 ∧
    (mergeGroups index pool).length ≤ 20 ∧
    (mergeGroups index pool).Pairwise groupDisj ∧
    (∀ g ∈ mergeGroups index pool, ∃ g₀ ∈ pool,
      g.gtype = g₀.gtype ∧ g.confidence = g₀.confidence ∧
      (∀ t ∈ g.tags, t ∈ g₀.tags) ∧ g₀.tags.length ≤ 2 * g.tags.length) := by
  have hl : ∀ g ∈ List.insertionSort semBefore pool, g ∈ pool := by
    intro g hg
    exact (List.mem_insertionSort semBefore).mp hg
  have hinv := acceptStep_inv index (List.insertionSort semBefore pool) pool hl
    ([], []) (by intro g hg; cases hg) List.Pairwise.nil (by intro g hg; cases hg)
  refine ⟨rfl, List.length_take_le 20 _, ?_, ?_⟩
  · exact hinv.2.1.sublist (List.take_sublist 20 _)
  · intro g hg
    exact hinv.2.2 g ((List.take_sublist 20 _).mem hg)

/-!
Quality scoring (`calculate_tag_quality_metrics`).  Five sub-scores are
combined with weights 0.25 / 0.25 / 0.20 / 0.15 / 0.15; the category is high
at overall ≥ 0.7, medium at ≥ 0.5, low below.
-/

theorem init_le_foldl_max (l : List Int) (a : Int) : a ≤ l.foldl max a := by
  induction l generalizing a with
  | nil => exact le_refl a
  | cons b bs ih => exact le_trans (le_max_left a b) (ih (max a b))

theorem foldl_min_le_init (l : List Int) (a : Int) : l.foldl min a ≤ a := by
  induction l generalizing a with
  | nil => exact le_refl a
  | cons b bs ih => exact le_trans (ih (min a b)) (min_le_left a b)

theorem mem_le_foldl_max (l : List Int) (a x : Int) (h : x ∈ l) :
    x ≤ l.foldl max a := by
  induction l generalizing a with
  | nil => cases h
  | cons b bs ih =>
    simp only [List.foldl_cons]
    rcases List.mem_cons.mp h with rfl | h
    · exact le_trans (le_max_right a x) (init_le_foldl_max bs (max a x))
    · exact ih (max a b) h

theorem foldl_min_le_mem (l : List Int) (a x : Int) (h : x ∈ l) :
    l.foldl min a ≤ x := by
  induction l generalizing a with
  | nil => cases h
  | cons b bs ih =>
    simp only [List.foldl_cons]
    rcases List.mem_cons.mp h with rfl | h
    · exact le_trans (foldl_min_le_init bs (min a x)) (min_le_right a x)
    · exact ih (min a b) h

theorem mem_le_listMax (l : List Int) (x : Int) (h : x ∈ l) : x ≤ listMax l := by
  unfold listMax
  match l, h with
  | y :: ys, h =>
    rcases List.mem_cons.mp h with rfl | h
    · exact init_le_foldl_max ys x
    · exact mem_le_foldl_max ys y x h

theorem listMin_le_mem (l : List Int) (x : Int) (h : x ∈ l) : listMin l ≤ x := by
  unfold listMin
  match l, h with
  | y :: ys, h =>
    rcases List.mem_cons.mp h with rfl | h
    · exact foldl_min_le_init ys x
    · exact foldl_min_le_mem ys y x h

/-- The number of distinct years never exceeds the year span. -/
theorem distinct_le_span (years : List Int) :
    ((distinctYears years).length : Int) ≤ yearSpan years := by
  rcases years with _ | ⟨y, ys⟩
  · simp [distinctYears, dedupFirst, yearSpan, listMax, listMin]
  · set l := y :: ys with hl
    have hmm : listMin l ≤ listMax l :=
      le_trans (listMin_le_mem l y (by rw [hl]; exact List.mem_cons_self y ys))
        (mem_le_listMax l y (by rw [hl]; exact List.mem_cons_self y ys))
    have hnd : (distinctYears l).Nodup := nodup_dedupFirst _
    have hsub : (distinctYears l).toFinset ⊆ Finset.Icc (listMin l) (listMax l) := by
      intro x hx
      rw [List.mem_toFinset] at hx
      unfold distinctYears at hx
      rw [mem_dedupFirst] at hx
      exact Finset.mem_Icc.mpr ⟨listMin_le_mem l x hx, mem_le_listMax l x hx⟩
    have hcard := Finset.card_le_card hsub
    rw [List.toFinset_card_of_nodup hnd, Int.card_Icc] at hcard
    have htn : ((listMax l + 1 - listMin l).toNat : Int) = listMax l + 1 - listMin l :=
      Int.toNat_of_nonneg (by omega)
    have : ((distinctYears l).length : Int) ≤ listMax l + 1 - listMin l := by
      rw [← htn]
      exact_mod_cast hcard
    unfold yearSpan
    omega

/-- `activity_density` always lies in `[0, 1]`. -/
theorem activityDensity_mem (years : List Int) :
    0 ≤ activityDensity years ∧ activityDensity years ≤ 1 := by
  unfold activityDensity
  split_ifs with h
  · constructor
    · apply div_nonneg
      · exact_mod_cast Nat.zero_le _
      · exact_mod_cast le_of_lt h
    · rw [div_le_one (by exact_mod_cast h)]
      exact_mod_cast distinct_le_span years
  · norm_num

/-- The quality category labels. -/
inductive QualityCat
  | high
  | medium
  | low
deriving DecidableEq

/-- The per-tag quality record. -/
structure QualityScore where
  usage : ℚ
  diversity : ℚ
  clarity : ℚ
  temporal : ℚ
  semantic : ℚ
  overall : ℚ
  category : QualityCat

/-- `usage_score = min(usage_count / 10, 1.0)`. -/
def usageScore (uses : Nat) : ℚ := min ((uses : ℚ) / 10) 1

/-- `co_tag_count`: distinct co-tags with weight above 1. -/
def coTagCount (index : TagIndex) (tag : String) : Nat :=
  ((keysOf index).filter (fun b => decide (1 < coWeight index tag b))).length

/-- `diversity_score = min(co_tag_count / 20, 1.0)`. -/
def diversityScore (n : Nat) : ℚ := min ((n : ℚ) / 20) 1

/-- `word_count = len(tag.split('_'))` — one more than the number of
underscore characters. -/
def wordCount (tag : String) : Nat := tag.toList.countP (fun c => c == '_') + 1

/-- `clarity_score`: 0.5 for length in `[5, 30]`, plus 0.5 for word count in
`[1, 3]`. -/
def clarityScore (tag : String) : ℚ :=
  (if 5 ≤ tag.length ∧ tag.length ≤ 30 then (1 : ℚ)/2 else 0) +
    (if 1 ≤ wordCount tag ∧ wordCount tag ≤ 3 then (1 : ℚ)/2 else 0)

/-- `temporal_score`: the activity density of the tag's year histogram when it
has at least 3 entries, else 0. -/
def temporalScore (years : List Int) : ℚ :=
  if 3 ≤ years.length then activityDensity years else 0

def genericTerms : List String :=
  ["research", "study", "paper", "article", "new", "good", "bad", "thing"]

/-- `semantic_score`: 0.3 for fixed generic terms, 0.5 for single-use tags,
0.7 for `_and_` / `_or_` compounds, 1.0 otherwise. -/
def semanticScore (tag : String) (uses : Nat) : ℚ :=
  if tag ∈ genericTerms then 3/10
  else if uses = 1 then 1/2
  else if subIn "_and_" tag || subIn "_or_" tag then 7/10
  else 1

/-- The weighted overall score. -/
def overallOf (u d c t s : ℚ) : ℚ :=
  u * (1/4) + d * (1/4) + c * (1/5) + t * (3/20) + s * (3/20)

/-- The category thresholds: high at ≥ 0.7, medium at ≥ 0.5, low below. -/
def categoryOf (overall : ℚ) : QualityCat :=
  if 7/10 ≤ overall then QualityCat.high
  else if 1/2 ≤ overall then QualityCat.medium
  else QualityCat.low

/-- The full per-tag quality computation (`tag_years` supplies the year
histogram collected by the second vault scan). -/
def qualityFor (index : TagIndex) (tagYears : String → List Int)
    (tag : String) : QualityScore :=
  { usage := usageScore (usesOf index tag)
    diversity := diversityScore (coTagCount index tag)
    clarity := clarityScore tag
    temporal := temporalScore (tagYears tag)
    semantic := semanticScore tag (usesOf index tag)
    overall := overallOf (usageScore (usesOf index tag))
      (diversityScore (coTagCount index tag)) (clarityScore tag)
      (temporalScore (tagYears tag)) (semanticScore tag (usesOf index tag))
    category := categoryOf (overallOf (usageScore (usesOf index tag))
      (diversityScore (coTagCount index tag)) (clarityScore tag)
      (temporalScore (tagYears tag)) (semanticScore tag (usesOf index tag))) }

theorem usageScore_mem (uses : Nat) : 0 ≤ usageScore uses ∧ usageScore uses ≤ 1 := by
  unfold usageScore
  refine ⟨le_min (by positivity) (by norm_num), min_le_right _ _⟩

theorem diversityScore_mem (n : Nat) :
    0 ≤ diversityScore n ∧ diversityScore n ≤ 1 := by
  unfold diversityScore
  refine ⟨le_min (by positivity) (by norm_num), min_le_right _ _⟩

theorem clarityScore_mem (tag : String) :
    0 ≤ clarityScore tag ∧ clarityScore tag ≤ 1 := by
  unfold clarityScore
  split_ifs <;> norm_num

theorem temporalScore_mem (years : List Int) :
    0 ≤ temporalScore years ∧ temporalScore years ≤ 1 := by
  unfold temporalScore
  split_ifs with h
  · exact activityDensity_mem years
  · norm_num

theorem semanticScore_mem (tag : String) (uses : Nat) :
    0 ≤ semanticScore tag uses ∧ semanticScore tag uses ≤ 1 := by
  unfold semanticScore
  split_ifs <;> norm_num

theorem overallOf_mem (u d c t s : ℚ)
    (hu : 0 ≤ u ∧ u ≤ 1) (hd : 0 ≤ d ∧ d ≤ 1) (hc : 0 ≤ c ∧ c ≤ 1)
    (ht : 0 ≤ t ∧ t ≤ 1) (hs : 0 ≤ s ∧ s ≤ 1) :
    0 ≤ overallOf u d c t s ∧ overallOf u d c t s ≤ 1 := by
  unfold overallOf
  constructor
  · nlinarith [hu.1, hd.1, hc.1, ht.1, hs.1]
  · nlinarith [hu.2, hd.2, hc.2, ht.2, hs.2]

theorem categoryOf_iff (x : ℚ) :
    (categoryOf x = QualityCat.high ↔ 7/10 ≤ x) ∧
    (categoryOf x = QualityCat.medium ↔ 1/2 ≤ x ∧ x < 7/10) ∧
    (categoryOf x = QualityCat.low ↔ x < 1/2) := by
  unfold categoryOf
  split_ifs with h1 h2
  · refine ⟨iff_of_true rfl h1, ?_, ?_⟩
    · exact iff_of_false (fun h => by cases h)
        (fun h => absurd h.2 (not_lt.mpr h1))
    · exact iff_of_false (fun h => by cases h)
        (fun h => by have := lt_of_le_of_lt h1 h; norm_num at this)
  · refine ⟨iff_of_false (fun h => by cases h) h1, ?_, ?_⟩
    · exact iff_of_true rfl ⟨h2, lt_of_not_le h1⟩
    · exact iff_of_false (fun h => by cases h) (fun h => absurd h2 (not_le.mpr h))
  · refine ⟨iff_of_false (fun h => by cases h) h1, ?_, ?_⟩
    · exact iff_of_false (fun h => by cases h) (fun h => h2 h.1)
    · exact iff_of_true rfl (lt_of_not_le h2)

/-- Claim C6: the overall quality score is the fixed weighted combination
0.25·usage + 0.25·diversity + 0.20·clarity + 0.15·temporal + 0.15·semantic,
lies in `[0, 1]`, and the category is high exactly at overall ≥ 0.7, medium
exactly at 0.5 ≤ overall < 0.7, and low exactly at overall < 0.5. -/
theorem quality_score_correct (index : TagIndex) (tagYears : String → List Int)
    (tag : String) :
    (qualityFor index tagYears tag).overall =
      (qualityFor index tagYears tag).usage * (1/4) +
      (qualityFor index tagYears tag).diversity * (1/4) +
      (qualityFor index tagYears tag).clarity * (1/5) +
      (qualityFor index tagYears tag).temporal * (3/20) +
      (qualityFor index tagYears tag).semantic * (3/20) ∧
    0 ≤ (qualityFor index tagYears tag).overall ∧
    (qualityFor index tagYears tag).overall ≤ 1 ∧
    ((qualityFor index tagYears tag).category = QualityCat.high ↔
      7/10 ≤ (qualityFor index tagYears tag).overall) ∧
    ((qualityFor index tagYears tag).category = QualityCat.medium ↔
      1/2 ≤ (qualityFor index tagYears tag).overall ∧
        (qualityFor index tagYears tag).overall < 7/10) ∧
    ((qualityFor index tagYears tag).category = QualityCat.low ↔
      (qualityFor index tagYears tag).overall < 1/2) := by
  have hb := overallOf_mem (usageScore (usesOf index tag))
    (diversityScore (coTagCount index tag)) (clarityScore tag)
    (temporalScore (tagYears tag)) (semanticScore tag (usesOf index tag))
    (usageScore_mem _) (diversityScore_mem _) (clarityScore_mem _)
    (temporalScore_mem _) (semanticScore_mem _ _)
  have hcat := categoryOf_iff (overallOf (usageScore (usesOf index tag))
    (diversityScore (coTagCount index tag)) (clarityScore tag)
    (temporalScore (tagYears tag)) (semanticScore tag (usesOf index tag)))
  exact ⟨rfl, hb.1, hb.2, hcat.1, hcat.2.1, hcat.2.2⟩

/-!
Removal-candidate analysis (`analyze_tags_to_remove`): one `if`/`elif` chain
per tag, so the first matching predicate wins and a tag lands in at most one
of the four predicate categories.
-/

/-- The removal categories assigned by the per-tag predicate chain. -/
inductive RemovalCat
  | tooGeneric
  | tooSpecific
  | malformed
  | lowValue
deriving DecidableEq

/-- The fixed `generic_words` set. -/
def genericWords : List String :=
  ["the", "and", "or", "in", "on", "at", "to", "for", "of", "with",
   "new", "old", "good", "bad", "big", "small", "more", "less",
   "yes", "no", "true", "false", "article", "paper", "study", "research"]

/-- Python `str.isdigit` on ASCII: nonempty and all digits. -/
def pyIsDigit (s : String) : Bool :=
  !s.toList.isEmpty && s.toList.all (fun c => c.isDigit)

/-- The regex `^[0-9_]+$`: nonempty and only digits or underscores. -/
def digitsUnders (s : String) : Bool :=
  !s.toList.isEmpty && s.toList.all (fun c => c.isDigit || c == '_')

/-- The per-tag `if`/`elif` chain of `analyze_tags_to_remove`.  The `uses ≤ 2`
branch records a candidate only at exactly one use. -/
def classifyRemoval (tag : String) (uses : Nat) : Option RemovalCat :=
  if tag ∈ genericWords ∨ tag.length < 3 then some RemovalCat.tooGeneric
  else if uses = 1 ∧ 30 < tag.length then some RemovalCat.tooSpecific
  else if pyIsDigit tag || digitsUnders tag then some RemovalCat.malformed
  else if uses ≤ 2 then
    (if uses = 1 then some RemovalCat.lowValue else none)
  else none

/-- Claim C9: the removal predicates are evaluated in a fixed order with the
first match winning — too generic (generic word or length < 3), then too
specific (1 use and length > 30), then malformed (only digits/underscores),
then low value (at most 2 uses, recorded only at exactly 1 use) — so every
tag lands in at most one category; a length-1 tag used once is flagged too
generic. -/
theorem removal_chain_correct :
    (∀ (tag : String) (uses : Nat),
      (classifyRemoval tag uses = some RemovalCat.tooGeneric ↔
        tag ∈ genericWords ∨ tag.length < 3) ∧
      (classifyRemoval tag uses = some RemovalCat.tooSpecific ↔
        ¬(tag ∈ genericWords ∨ tag.length < 3) ∧ uses = 1 ∧ 30 < tag.length) ∧
      (classifyRemoval tag uses = some RemovalCat.malformed ↔
        ¬(tag ∈ genericWords ∨ tag.length < 3) ∧
          ¬(uses = 1 ∧ 30 < tag.length) ∧
          (pyIsDigit tag || digitsUnders tag) = true) ∧
      (classifyRemoval tag uses = some RemovalCat.lowValue ↔
        ¬(tag ∈ genericWords ∨ tag.length < 3) ∧
          ¬(uses = 1 ∧ 30 < tag.length) ∧
          ¬((pyIsDigit tag || digitsUnders tag) = true) ∧ uses = 1)) ∧
    classifyRemoval "x" 1 = some RemovalCat.tooGeneric := by
  constructor
  · intro tag uses
    unfold classifyRemoval
    split_ifs with h1 h2 h3 h4 h5
    · exact ⟨iff_of_true rfl h1,
        iff_of_false (fun h => by cases h) (fun h => h.1 h1),
        iff_of_false (fun h => by cases h) (fun h => h.1 h1),
        iff_of_false (fun h => by cases h) (fun h => h.1 h1)⟩
    · exact ⟨iff_of_false (fun h => by cases h) h1,
        iff_of_true rfl ⟨h1, h2⟩,
        iff_of_false (fun h => by cases h) (fun h => h.2.1 h2),
        iff_of_false (fun h => by cases h) (fun h => h.2.1 h2)⟩
    · exact ⟨iff_of_false (fun h => by cases h) h1,
        iff_of_false (fun h => by cases h) (fun h => h2 h.2),
        iff_of_true rfl ⟨h1, h2, h3⟩,
        iff_of_false (fun h => by cases h) (fun h => h.2.2.1 h3)⟩
    · exact ⟨iff_of_false (fun h => by cases h) h1,
        iff_of_false (fun h => by cases h) (fun h => h2 h.2),
        iff_of_false (fun h => by cases h) (fun h => h3 h.2.2),
        iff_of_true rfl ⟨h1, h2, h3, h5⟩⟩
    · exact ⟨iff_of_false (fun h => by cases h) h1,
        iff_of_false (fun h => by cases h) (fun h => h2 h.2),
        iff_of_false (fun h => by cases h) (fun h => h3 h.2.2),
        iff_of_false (fun h => by cases h) (fun h => h5 h.2.2.2)⟩
    · exact ⟨iff_of_false (fun h => by cases h) h1,
        iff_of_false (fun h => by cases h) (fun h => h2 h.2),
        iff_of_false (fun h => by cases h) (fun h => h3 h.2.2),
        iff_of_false (fun h => by cases h)
          (fun h => h4 (h.2.2.2 ▸ (by norm_num : (1 : Nat) ≤ 2)))⟩
  · decide

/-!
Standardization suggestions (`_suggest_standardizations` with the static
`tag_mappings` table): for each indexed tag matching a table key, suggest a
merge (reason `variant_exists`) when the canonical form is also indexed, else
a rename (reason `standardization`).
-/

/-- The static variant → canonical table, in source order. -/
def tagMappings : List (String × String) :=
  [("higher_ed", "higher_education"), ("higher-education", "higher_education"),
   ("university", "higher_education"), ("k12", "k-12"), ("k_12", "k-12"),
   ("ai", "artificial_intelligence"), ("ml", "machine_learning"),
   ("dl", "deep_learning"), ("llm", "large_language_models"),
   ("llms", "large_language_models"), ("genai", "generative_ai"),
   ("gen_ai", "generative_ai"), ("e-learning", "online_learning"),
   ("elearning", "online_learning"), ("distance_learning", "online_learning"),
   ("mooc", "moocs"), ("massive_open_online_courses", "moocs"),
   ("lit_review", "literature_review"),
   ("systematic_literature_review", "systematic_review"),
   ("meta_analysis", "meta-analysis"), ("case-study", "case_study"),
   ("ict", "information_communication_technology"),
   ("hci", "human_computer_interaction"), ("ux", "user_experience"),
   ("ui", "user_interface"), ("pd", "professional_development"),
   ("cpd", "continuing_professional_development")]

/-- ASCII lowercasing of one character (`str.lower` restricted to the ASCII
tags the scanner produces). -/
def lowerChar (c : Char) : Char :=
  if 'A' ≤ c ∧ c ≤ 'Z' then Char.ofNat (c.toNat + 32) else c

/-- `tag.lower()` on ASCII strings. -/
def lowerStr (s : String) : String := String.mk (s.toList.map lowerChar)

/-- Table lookup: `tag_mappings[tag.lower()]` when present. -/
def lookupMapping (t : String) : Option String :=
  (tagMappings.find? (fun p => p.1 == t)).map Prod.snd

/-- The reason attached to a suggestion. -/
inductive SuggestReason
  | variantExists
  | standardization
deriving DecidableEq

/-- One standardization suggestion. -/
structure Suggestion where
  current : String
  suggested : String
  reason : SuggestReason
  currentUses : Nat
  standardUses : Option Nat
deriving DecidableEq

/-- `_suggest_standardizations`: iterate the indexed tags; on a table hit,
emit a merge suggestion (with both usage counts) when the canonical tag is
indexed, else a rename suggestion. -/
def suggestStandardizations (index : TagIndex) : List Suggestion :=
  (keysOf index).filterMap (fun tag =>
    match lookupMapping (lowerStr tag) with
    | none => none
    | some std =>
      if std ∈ keysOf index then
        some ⟨tag, std, SuggestReason.variantExists, usesOf index tag,
          some (usesOf index std)⟩
      else
        some ⟨tag, std, SuggestReason.standardization, usesOf index tag, none⟩)

/-- Claim C10 (amended): for every indexed tag matching a key of the static
table, a merge suggestion with reason `variant_exists` (carrying both usage
counts) is emitted when the canonical form is also indexed, and a rename
suggestion with reason `standardization` when it is absent.  The canonical
form of `k12` is `k-12` (not `k_12`), so the rename scenario needs `k-12`
absent. -/
theorem standardization_suggestions (index : TagIndex) (tag std : String)
    (h1 : tag ∈ keysOf index) (h2 : lookupMapping (lowerStr tag) = some std) :
    (std ∈ keysOf index →
      (⟨tag, std, SuggestReason.variantExists, usesOf index tag,
        some (usesOf index std)⟩ : Suggestion) ∈ suggestStandardizations index) ∧
    (std ∉ keysOf index →
      (⟨tag, std, SuggestReason.standardization, usesOf index tag,
        none⟩ : Suggestion) ∈ suggestStandardizations index) := by
  constructor
  · intro hstd
    refine List.mem_filterMap.mpr ⟨tag, h1, ?_⟩
    rw [h2]
    simp only [if_pos hstd]
  · intro hstd
    refine List.mem_filterMap.mpr ⟨tag, h1, ?_⟩
    rw [h2]
    simp only [if_neg hstd]

/-- Index for the C10 rename scenario: only the variant `k12` is present. -/
def exC10w : TagIndex := [("k12", [0])]

/-- Witness for C10: with `k12` indexed and its canonical `k-12` absent, the
rename suggestion with reason `standardization` is emitted. -/
theorem standardization_suggestions_witness :
    ("k12" ∈ keysOf exC10w ∧ lookupMapping (lowerStr "k12") = some "k-12" ∧
      "k-12" ∉ keysOf exC10w) ∧
    (⟨"k12", "k-12", SuggestReason.standardization, usesOf exC10w "k12",
      none⟩ : Suggestion) ∈ suggestStandardizations exC10w := by
  refine ⟨⟨by decide, by decide, by decide⟩, ?_⟩
  exact (standardization_suggestions exC10w "k12" "k-12" (by decide) (by decide)).2
    (by decide)

/-- Index refuting the C10 scenario as stated: `k12` present, `k_12` absent,
but the canonical `k-12` present. -/
def exC10c : TagIndex := [("k12", [0]), ("k-12", [0])]

/-- Counterexample to C10 as stated: the index contains `k12` and not `k_12`,
yet the only emitted suggestion for `k12` is a merge (reason
`variant_exists`) — no rename with reason `standardization` is emitted,
because the canonical form of `k12` is `k-12` and it is present. -/
theorem standardization_scenario_counterexample :
    "k12" ∈ keysOf exC10c ∧ "k_12" ∉ keysOf exC10c ∧
    suggestStandardizations exC10c =
      [⟨"k12", "k-12", SuggestReason.variantExists, 1, some 1⟩] := by
  refine ⟨by decide, by decide, by decide⟩
